import Mathlib

/-!
Verification of the MCP client core of the repository.

The development shallowly embeds the two source modules the claims are
about: the MCP client manager (connection lifecycle, JSON-RPC pending-call
correlation, catalog discovery, tool dispatch) and the MCP integration
layer (flattened bare-name registry, agent dispatch, refresh).  JavaScript
Map objects are embedded as insertion-ordered association lists, which is
exactly the iteration and overwrite semantics of Map: `set` on a present
key updates the value in place, otherwise appends; iteration follows
insertion order.
-/

namespace MCP

/-- JS Map.set: update in place when the key is present, append otherwise. -/
def mapSet [DecidableEq κ] : List (κ × α) → κ → α → List (κ × α)
  | [], k, v => [(k, v)]
  | (k0, v0) :: rest, k, v =>
      if k0 = k then (k, v) :: rest else (k0, v0) :: mapSet rest k v

/-- JS Map.get: first entry with the key, if any. -/
def mapGet [DecidableEq κ] : List (κ × α) → κ → Option α
  | [], _ => none
  | (k0, v0) :: rest, k => if k0 = k then some v0 else mapGet rest k

/-- JS Map.delete: remove the entry with the key. -/
def mapDelete [DecidableEq κ] : List (κ × α) → κ → List (κ × α)
  | [], _ => []
  | (k0, v0) :: rest, k => if k0 = k then rest else (k0, v0) :: mapDelete rest k

/-- JS Map.has. -/
def mapHas [DecidableEq κ] (m : List (κ × α)) (k : κ) : Bool :=
  (mapGet m k).isSome

theorem mapGet_eq_none_of_not_mem [DecidableEq κ] (m : List (κ × α)) (k : κ)
    (h : k ∉ m.map Prod.fst) : mapGet m k = none := by
  induction m with
  | nil => rfl
  | cons p rest ih =>
      obtain ⟨k0, v0⟩ := p
      simp only [List.map_cons, List.mem_cons] at h
      push_neg at h
      simp only [mapGet, if_neg h.1.symm]
      exact ih h.2

theorem mapGet_set_self [DecidableEq κ] (m : List (κ × α)) (k : κ) (v : α) :
    mapGet (mapSet m k v) k = some v := by
  induction m with
  | nil => simp [mapSet, mapGet]
  | cons p rest ih =>
      obtain ⟨k0, v0⟩ := p
      by_cases h : k0 = k
      · simp [mapSet, mapGet, h]
      · simp [mapSet, mapGet, h, ih]

theorem mapGet_set_ne [DecidableEq κ] (m : List (κ × α)) (k k1 : κ) (v : α)
    (h : k1 ≠ k) : mapGet (mapSet m k v) k1 = mapGet m k1 := by
  induction m with
  | nil =>
      simp only [mapSet, mapGet, if_neg (Ne.symm h)]
  | cons p rest ih =>
      obtain ⟨k0, v0⟩ := p
      by_cases h0 : k0 = k
      · subst h0
        simp only [mapSet, if_pos rfl, mapGet, if_neg (Ne.symm h)]
      · simp only [mapSet, if_neg h0, mapGet]
        by_cases h1 : k0 = k1
        · simp [h1]
        · simp [h1, ih]

theorem mapGet_delete_ne [DecidableEq κ] (m : List (κ × α)) (k k1 : κ)
    (h : k1 ≠ k) : mapGet (mapDelete m k) k1 = mapGet m k1 := by
  induction m with
  | nil => rfl
  | cons p rest ih =>
      obtain ⟨k0, v0⟩ := p
      by_cases h0 : k0 = k
      · subst h0
        have hd : mapDelete ((k0, v0) :: rest) k0 = rest := by
          simp [mapDelete]
        rw [hd]
        simp [mapGet, Ne.symm h]
      · simp only [mapDelete, if_neg h0, mapGet]
        by_cases h1 : k0 = k1
        · simp [h1]
        · simp [h1, ih]

theorem mapGet_delete_self [DecidableEq κ] (m : List (κ × α)) (k : κ)
    (hnd : (m.map Prod.fst).Nodup) : mapGet (mapDelete m k) k = none := by
  induction m with
  | nil => rfl
  | cons p rest ih =>
      obtain ⟨k0, v0⟩ := p
      simp only [List.map_cons, List.nodup_cons] at hnd
      by_cases h0 : k0 = k
      · subst h0
        have hd : mapDelete ((k0, v0) :: rest) k0 = rest := by
          simp [mapDelete]
        rw [hd]
        exact mapGet_eq_none_of_not_mem rest k0 hnd.1
      · simp only [mapDelete, if_neg h0, mapGet, if_neg h0]
        exact ih hnd.2

theorem mem_mapSet [DecidableEq κ] (m : List (κ × α)) (k : κ) (v : α) :
    ∀ p ∈ mapSet m k v, p = (k, v) ∨ p ∈ m := by
  induction m with
  | nil => simp [mapSet]
  | cons q rest ih =>
      obtain ⟨k0, v0⟩ := q
      intro p hp
      by_cases h0 : k0 = k
      · simp only [mapSet, if_pos h0, List.mem_cons] at hp
        rcases hp with h | h
        · exact Or.inl h
        · exact Or.inr (List.mem_cons_of_mem _ h)
      · simp only [mapSet, if_neg h0, List.mem_cons] at hp
        rcases hp with h | h
        · exact Or.inr (by simp [h])
        · rcases ih p h with h2 | h2
          · exact Or.inl h2
          · exact Or.inr (List.mem_cons_of_mem _ h2)

theorem length_mapSet_fresh [DecidableEq κ] (m : List (κ × α)) (k : κ) (v : α)
    (h : mapGet m k = none) : (mapSet m k v).length = m.length + 1 := by
  induction m with
  | nil => simp [mapSet]
  | cons q rest ih =>
      obtain ⟨k0, v0⟩ := q
      by_cases h0 : k0 = k
      · simp [mapGet, h0] at h
      · simp only [mapGet, if_neg h0] at h
        simp [mapSet, if_neg h0, ih h]

theorem nodupKeys_mapSet [DecidableEq κ] (m : List (κ × α)) (k : κ) (v : α)
    (hnd : (m.map Prod.fst).Nodup) : ((mapSet m k v).map Prod.fst).Nodup := by
  induction m with
  | nil => simp [mapSet]
  | cons q rest ih =>
      obtain ⟨k0, v0⟩ := q
      simp only [List.map_cons, List.nodup_cons] at hnd
      by_cases h0 : k0 = k
      · subst h0
        have hs : mapSet ((k0, v0) :: rest) k0 v = (k0, v) :: rest := by
          simp [mapSet]
        rw [hs]
        simp only [List.map_cons, List.nodup_cons]
        exact ⟨hnd.1, hnd.2⟩
      · simp only [mapSet, if_neg h0, List.map_cons, List.nodup_cons]
        refine ⟨fun hm => ?_, ih hnd.2⟩
        have hex : ∃ p ∈ mapSet rest k v, p.1 = k0 := by
          simpa using hm
        obtain ⟨p, hp, hpk⟩ := hex
        rcases mem_mapSet rest k v p hp with h2 | h2
        · exact h0 (by simpa [h2] using hpk.symm)
        · exact hnd.1 (by simpa [hpk] using List.mem_map_of_mem Prod.fst h2)

/-- Embedding of the JS string method endsWith used by callTool
(`key.endsWith` with the slash-qualified suffix): suffix test on the
character list of the string. -/
def strEndsWith (s suf : String) : Bool :=
  suf.data.isSuffixOf s.data

/-- Qualified registry key, `serverId + "/" + name`, as built by
initializeServerCapabilities. -/
def qualKey (serverId nm : String) : String :=
  serverId ++ "/" ++ nm

/-- Tool descriptor as stored in the manager registry: the spread of the
upstream tool object plus the owning serverId. -/
structure Tool where
  serverId : String
  name : String
  description : String
  inputSchema : String
deriving DecidableEq, Repr

/-- Resource descriptor as stored in the manager registry. -/
structure Rsrc where
  serverId : String
  uri : String
deriving DecidableEq, Repr

/-- Prompt descriptor as stored in the manager registry. -/
structure Prm where
  serverId : String
  name : String
deriving DecidableEq, Repr

/-- Per-server connection record.  The source object also carries the
transport spec (command/args/env or url), timeout and autoApprove, which no
modeled operation reads; the fields read by the claims are the id and the
connected flag. -/
structure Server where
  id : String
  connected : Bool
deriving DecidableEq, Repr

/-- The MCPClientManager state: servers map plus the three global
registries and the isInitialized flag.  All four maps are JS Maps,
embedded as insertion-ordered association lists. -/
structure Manager where
  servers : List (String × Server)
  tools : List (String × Tool)
  resources : List (String × Rsrc)
  prompts : List (String × Prm)
  isInit : Bool
deriving DecidableEq, Repr

/-- A fresh MCPClientManager (constructor state). -/
def emptyManager : Manager :=
  ⟨[], [], [], [], false⟩

/-- Errors thrown by callTool, mirroring the thrown Error messages:
`Tool not found`, `Server not connected`, and a propagated RPC failure. -/
inductive CallErr where
  | toolNotFound (nm : String)
  | serverUnavailable (serverId : String)
  | rpcFail (msg : String)
deriving DecidableEq, Repr

/-- One outbound `tools/call` JSON-RPC request as forwarded to a server. -/
structure SentReq where
  serverId : String
  method : String
  toolName : String
  args : String
deriving DecidableEq, Repr

/-- Transport oracle: the reply a server gives to one forwarded request,
either a JSON-RPC error message or a result payload. -/
abbrev Oracle := SentReq → Except String String

/-- Tool resolution inside callTool: first an exact lookup of the given
name in the tools map (qualified-id match), then a scan of the entries in
insertion order for the first key with `/name` as a suffix. -/
def resolveTool (tools : List (String × Tool)) (nm : String) : Option Tool :=
  match mapGet tools nm with
  | some t => some t
  | none =>
      (tools.find? (fun p => strEndsWith p.1 ("/" ++ nm))).map (fun p => p.2)

/-- Lift a transport-level reply into the callTool result. -/
def liftRpc : Except String String → Except CallErr String
  | .error e => .error (.rpcFail e)
  | .ok v => .ok v

/-- MCPClientManager.callTool: resolve the descriptor, look up the owning
server, fail when it is missing or not connected, otherwise forward one
`tools/call` request carrying the bare tool name and return its result.
The second component is the list of requests actually forwarded. -/
def callTool (m : Manager) (o : Oracle) (nm args : String) :
    Except CallErr String × List SentReq :=
  match resolveTool m.tools nm with
  | none => (.error (.toolNotFound nm), [])
  | some tool =>
      match mapGet m.servers tool.serverId with
      | none => (.error (.serverUnavailable tool.serverId), [])
      | some srv =>
          if srv.connected then
            let req : SentReq := ⟨tool.serverId, "tools/call", tool.name, args⟩
            (liftRpc (o req), [req])
          else (.error (.serverUnavailable tool.serverId), [])

/-- Upstream tool object from a `tools/list` reply. -/
structure ToolInfo where
  name : String
  description : String
  inputSchema : String
deriving DecidableEq, Repr

/-- Upstream resource object from a `resources/list` reply. -/
structure RsrcInfo where
  uri : String
deriving DecidableEq, Repr

/-- Upstream prompt object from a `prompts/list` reply. -/
structure PrmInfo where
  name : String
deriving DecidableEq, Repr

/-- The replies a server gives to the three discovery calls; an error value
is a rejected callServerMethod (timeout or RPC failure). -/
structure Discovery where
  tools : Except String (List ToolInfo)
  resources : Except String (List RsrcInfo)
  prompts : Except String (List PrmInfo)
deriving Repr

/-- The per-tool loop body of initializeServerCapabilities: insert each
listed tool into the live tools map under its qualified key. -/
def insertTools (serverId : String) (ts : List ToolInfo)
    (m : List (String × Tool)) : List (String × Tool) :=
  ts.foldl
    (fun acc t => mapSet acc (qualKey serverId t.name)
      ⟨serverId, t.name, t.description, t.inputSchema⟩) m

/-- The per-resource loop of initializeServerCapabilities. -/
def insertRsrcs (serverId : String) (rs : List RsrcInfo)
    (m : List (String × Rsrc)) : List (String × Rsrc) :=
  rs.foldl (fun acc r => mapSet acc (qualKey serverId r.uri) ⟨serverId, r.uri⟩) m

/-- The per-prompt loop of initializeServerCapabilities. -/
def insertPrms (serverId : String) (ps : List PrmInfo)
    (m : List (String × Prm)) : List (String × Prm) :=
  ps.foldl (fun acc p => mapSet acc (qualKey serverId p.name) ⟨serverId, p.name⟩) m

/-- MCPClientManager.initializeServerCapabilities: the three discovery
calls are awaited sequentially inside one try/catch; entries are written
into the live global maps as each reply is processed.  A rejected call
jumps to the catch, which only logs: later calls of the pass are skipped,
earlier insertions are kept, and nothing propagates to the caller. -/
def initServerCapabilities (serverId : String) (d : Discovery) (m : Manager) :
    Manager :=
  match d.tools with
  | .error _ => m
  | .ok ts =>
      let m1 := { m with tools := insertTools serverId ts m.tools }
      match d.resources with
      | .error _ => m1
      | .ok rs =>
          let m2 := { m1 with resources := insertRsrcs serverId rs m1.resources }
          match d.prompts with
          | .error _ => m2
          | .ok ps => { m2 with prompts := insertPrms serverId ps m2.prompts }

/-- Outcome of one connect attempt for a configured server: the transport
construction plus the `initialize` call either fail (the thrown error is
caught by initialize, which moves on), or succeed, after which the server
answers the discovery pass with the given replies. -/
inductive ConnectOutcome where
  | fails (msg : String)
  | ok (d : Discovery)
deriving Repr

/-- Whether a configured entry connects successfully. -/
def isOkCfg (c : String × ConnectOutcome) : Bool :=
  match c.2 with
  | .fails _ => false
  | .ok _ => true

/-- MCPClientManager.connectToServer under the per-server try/catch of
initialize: a connection failure leaves the manager untouched (the error
is logged and swallowed); on success the server record is stored with
connected = true and the discovery pass runs. -/
def connectStep (m : Manager) (c : String × ConnectOutcome) : Manager :=
  match c.2 with
  | .fails _ => m
  | .ok d =>
      let m1 := { m with servers := mapSet m.servers c.1 ⟨c.1, true⟩ }
      initServerCapabilities c.1 d m1

/-- MCPClientManager.initialize: early return when already initialized,
otherwise fold the per-server connect attempts in configured order, each
under its own catch, then mark the manager initialized. -/
def initAll (cfgs : List (String × ConnectOutcome)) (m : Manager) : Manager :=
  if m.isInit then m
  else { cfgs.foldl connectStep m with isInit := true }

/-- The registry states observable at the await boundaries of initialize:
the state before any server is processed and after each configured server
completes its connect-and-discover step.  In the source the shared maps
are live at every such boundary (and at the finer boundaries inside one
discovery pass), so a concurrent reader can observe any element of this
list. -/
def initSnapshots (cfgs : List (String × ConnectOutcome)) (m : Manager) :
    List Manager :=
  cfgs.scanl connectStep m

/-- MCPClientManager.shutdown: kill every command process, mark every
server disconnected, then clear the servers map and the three registries
and reset isInitialized. -/
def shutdown (_m : Manager) : Manager :=
  ⟨[], [], [], [], false⟩

/-- Number of servers whose record is Connected. -/
def countConnected (m : Manager) : Nat :=
  (m.servers.filter (fun p => p.2.connected)).length

/-- How a pending call continuation gets invoked.  The source never
rejects a pending entry with a transport error: the only invocations are a
correlated resolve, a correlated RPC reject, the timeout reject of the
timer armed in sendCommand, and the immediate reject when sendCommand is
entered with no process or a disconnected server. -/
inductive Outcome where
  | resolvedR (payload : String)
  | rejectedRpc (msg : String)
  | rejectedTimeout
  | rejectedNotConnected
deriving DecidableEq, Repr

/-- One command connection: the connected flag, the responseHandlers
pending table (message id to caller token), the log of continuation
invocations performed so far (caller token and outcome), and the emitted
events. -/
structure Conn where
  connected : Bool
  responseHandlers : List (Nat × Nat)
  settled : List (Nat × Outcome)
  events : List String
deriving DecidableEq, Repr

/-- One parsed incoming JSON-RPC message: its id when present (JS
truthiness makes id 0 behave like a missing id), its error member when
present, and the rest of the message as payload. -/
structure RpcMsg where
  id : Option Nat
  err : Option String
  payload : String
deriving DecidableEq, Repr

/-- The outcome handleJSONRPCMessage delivers for a correlated message:
reject with the error message when the message carries an error member,
resolve with the message otherwise. -/
def rpcOutcome (msg : RpcMsg) : Outcome :=
  match msg.err with
  | some e => .rejectedRpc e
  | none => .resolvedR msg.payload

/-- MCPClientManager.handleJSONRPCMessage: when the message has a truthy
id with a matching responseHandlers entry, delete the entry and invoke its
continuation; every other message is emitted as a server-message event. -/
def handleJSONRPCMessage (c : Conn) (msg : RpcMsg) : Conn :=
  match msg.id with
  | some i =>
      if i ≠ 0 then
        match mapGet c.responseHandlers i with
        | some caller =>
            { c with
              responseHandlers := mapDelete c.responseHandlers i,
              settled := c.settled ++ [(caller, rpcOutcome msg)] }
        | none => { c with events := c.events ++ ["server-message"] }
      else { c with events := c.events ++ ["server-message"] }
  | none => { c with events := c.events ++ ["server-message"] }

/-- The timer closure armed by sendCommand for the call with the given id
and caller: when the entry for the id is still present it is deleted and
the closure rejects its own caller with a timeout failure; otherwise the
timer does nothing. -/
def fireTimeout (c : Conn) (i caller : Nat) : Conn :=
  if mapHas c.responseHandlers i then
    { c with
      responseHandlers := mapDelete c.responseHandlers i,
      settled := c.settled ++ [(caller, .rejectedTimeout)] }
  else c

/-- The synchronous part of MCPClientManager.sendCommand: with no process
or a disconnected server the caller is rejected at once; otherwise the
caller is registered in responseHandlers under the message id (a JS
Map.set, overwriting any entry already stored under that id) and the
envelope is written to the process. -/
def sendCommandStart (c : Conn) (hasProcess : Bool) (i caller : Nat) : Conn :=
  if !hasProcess || !c.connected then
    { c with settled := c.settled ++ [(caller, .rejectedNotConnected)] }
  else { c with responseHandlers := mapSet c.responseHandlers i caller }

/-- The exit handler installed on the spawned process in
createCommandConnection: it marks the server disconnected and emits a
server-disconnected event; it does not touch responseHandlers and invokes
no pending continuation. -/
def onProcessExit (c : Conn) : Conn :=
  { c with connected := false, events := c.events ++ ["server-disconnected"] }

/-- Simplified tool descriptor built by MCPIntegration.registerTools.  The
execute closure captures the qualified key of the registry entry it was
built from and calls the manager with it; the capture is embedded as the
executeKey field. -/
structure AgentTool where
  name : String
  description : String
  server : String
  schema : String
  executeKey : String
deriving DecidableEq, Repr

/-- The MCPIntegration state: its own initialized flag, the owned manager
when one has been constructed, and the flattened bare-name registry. -/
structure Integ where
  isInit : Bool
  manager : Option Manager
  toolRegistry : List (String × AgentTool)
deriving DecidableEq, Repr

/-- A fresh MCPIntegration (constructor state). -/
def emptyInteg : Integ :=
  ⟨false, none, []⟩

/-- MCPIntegration.registerTools: clear the flattened registry, then walk
the manager tools map in insertion order and store each descriptor under
its bare name, so a later entry with the same bare name overwrites an
earlier one. -/
def registerTools (g : Integ) : Integ :=
  match g.manager with
  | none => g
  | some m =>
      { g with
        toolRegistry := m.tools.foldl
          (fun acc p =>
            mapSet acc p.2.name
              ⟨p.2.name, p.2.description, p.2.serverId, p.2.inputSchema, p.1⟩)
          [] }

/-- MCPIntegration.initialize: early return when the integration layer is
already flagged initialized; otherwise construct a fresh manager, run its
initialize over the configured servers, register the flattened tools and
set the flag. -/
def integInit (g : Integ) (cfgs : List (String × ConnectOutcome)) : Integ :=
  if g.isInit then g
  else
    registerTools
      { g with manager := some (initAll cfgs emptyManager), isInit := true }

/-- The mcp-refresh IPC handler: no manager means nothing to refresh;
otherwise shut the manager down and call the integration initialize again,
reporting success. -/
def mcpRefresh (g : Integ) (cfgs : List (String × ConnectOutcome)) :
    Integ × Bool :=
  match g.manager with
  | none => (g, false)
  | some m =>
      let g1 := { g with manager := some (shutdown m) }
      (integInit g1 cfgs, true)

/-- The tools map of the integration layer manager, empty when no manager
exists. -/
def integManagerTools (g : Integ) : List (String × Tool) :=
  match g.manager with
  | none => []
  | some m => m.tools

/-- MCPIntegration.executeTool: look the bare name up in the flattened
registry and run the stored execute closure, which calls the manager
callTool with the captured qualified key.  A missing manager would crash
the closure in the source; it is embedded as an error result. -/
def executeToolI (g : Integ) (o : Oracle) (nm args : String) :
    Except CallErr String × List SentReq :=
  match mapGet g.toolRegistry nm with
  | none => (.error (.toolNotFound nm), [])
  | some t =>
      match g.manager with
      | none => (.error (.toolNotFound nm), [])
      | some m => callTool m o t.executeKey args

deriving instance DecidableEq for Except

theorem find?_append_first (l1 l2 : List α) (a : α) (pfn : α → Bool)
    (h1 : ∀ x ∈ l1, pfn x = false) (h2 : pfn a = true) :
    (l1 ++ a :: l2).find? pfn = some a := by
  induction l1 with
  | nil => simp [List.find?, h2]
  | cons b l ih =>
      have hb : pfn b = false := h1 b (List.mem_cons_self _ _)
      simp only [List.cons_append, List.find?, hb]
      exact ih (fun x hx => h1 x (List.mem_cons_of_mem _ hx))

theorem resolveTool_exact (tools : List (String × Tool)) (nm : String)
    (t : Tool) (h : mapGet tools nm = some t) : resolveTool tools nm = some t := by
  simp [resolveTool, h]

theorem resolveTool_bare (tools l1 l2 : List (String × Tool)) (k : String)
    (t : Tool) (nm : String) (hsplit : tools = l1 ++ (k, t) :: l2)
    (hget : mapGet tools nm = none)
    (h1 : ∀ p ∈ l1, strEndsWith p.1 ("/" ++ nm) = false)
    (h2 : strEndsWith k ("/" ++ nm) = true) :
    resolveTool tools nm = some t := by
  subst hsplit
  simp only [resolveTool, hget]
  rw [find?_append_first l1 l2 (k, t) _ h1 h2]
  rfl

/-- C1: callTool resolution and dispatch.  An exact qualified-id hit in the
tools map resolves to exactly that descriptor; with no exact hit, the first
entry in registry insertion order whose key ends in slash-name resolves;
with no match callTool fails ToolNotFound; a resolved descriptor whose
owning server is missing or not connected fails ServerUnavailable; and a
resolved descriptor with a connected owner forwards exactly one tools/call
request to that server and returns its reply result. -/
theorem callTool_resolution (m : Manager) (o : Oracle) (nm args : String) :
    (∀ t, mapGet m.tools nm = some t → resolveTool m.tools nm = some t)
    ∧ (∀ l1 k t l2, m.tools = l1 ++ (k, t) :: l2 →
        mapGet m.tools nm = none →
        (∀ p ∈ l1, strEndsWith p.1 ("/" ++ nm) = false) →
        strEndsWith k ("/" ++ nm) = true →
        resolveTool m.tools nm = some t)
    ∧ (resolveTool m.tools nm = none →
        callTool m o nm args = (.error (.toolNotFound nm), []))
    ∧ (∀ t, resolveTool m.tools nm = some t →
        mapGet m.servers t.serverId = none →
        callTool m o nm args = (.error (.serverUnavailable t.serverId), []))
    ∧ (∀ t srv, resolveTool m.tools nm = some t →
        mapGet m.servers t.serverId = some srv → srv.connected = false →
        callTool m o nm args = (.error (.serverUnavailable t.serverId), []))
    ∧ (∀ t srv, resolveTool m.tools nm = some t →
        mapGet m.servers t.serverId = some srv → srv.connected = true →
        callTool m o nm args =
          (liftRpc (o ⟨t.serverId, "tools/call", t.name, args⟩),
            [⟨t.serverId, "tools/call", t.name, args⟩])) := by
  refine ⟨fun t h => resolveTool_exact m.tools nm t h,
    fun l1 k t l2 hs hg h1 h2 => resolveTool_bare m.tools l1 l2 k t nm hs hg h1 h2,
    fun h => by simp [callTool, h],
    fun t hres hsrv => by simp [callTool, hres, hsrv],
    fun t srv hres hsrv hc => by simp [callTool, hres, hsrv, hc],
    fun t srv hres hsrv hc => by simp [callTool, hres, hsrv, hc]⟩

/-- Witness scenario for C1: two servers with the same bare tool name, a
descriptor owned by an unregistered server, and a disconnected server. -/
def mgrW : Manager :=
  ⟨[("a", ⟨"a", true⟩), ("b", ⟨"b", true⟩), ("d", ⟨"d", false⟩)],
    [("a/echo", ⟨"a", "echo", "da", "sa"⟩), ("b/echo", ⟨"b", "echo", "db", "sb"⟩),
      ("c/x", ⟨"ghost", "x", "", ""⟩), ("d/y", ⟨"d", "y", "", ""⟩)],
    [], [], true⟩

/-- Oracle used by the witnesses: every forwarded request succeeds with the
payload res. -/
def oracleW : Oracle := fun _ => .ok "res"

theorem callTool_resolution_witness :
    resolveTool mgrW.tools "a/echo" = some ⟨"a", "echo", "da", "sa"⟩
    ∧ resolveTool mgrW.tools "echo" = some ⟨"a", "echo", "da", "sa"⟩
    ∧ callTool mgrW oracleW "zzz" "x" = (.error (.toolNotFound "zzz"), [])
    ∧ callTool mgrW oracleW "c/x" "x" = (.error (.serverUnavailable "ghost"), [])
    ∧ callTool mgrW oracleW "d/y" "x" = (.error (.serverUnavailable "d"), [])
    ∧ callTool mgrW oracleW "a/echo" "hi" =
        (.ok "res", [⟨"a", "tools/call", "echo", "hi"⟩]) := by
  refine ⟨(callTool_resolution mgrW oracleW "a/echo" "x").1 ⟨"a", "echo", "da", "sa"⟩ (by decide),
    (callTool_resolution mgrW oracleW "echo" "x").2.1
      [] "a/echo" ⟨"a", "echo", "da", "sa"⟩
      [("b/echo", ⟨"b", "echo", "db", "sb"⟩), ("c/x", ⟨"ghost", "x", "", ""⟩),
        ("d/y", ⟨"d", "y", "", ""⟩)]
      (by decide) (by decide) (by decide) (by decide),
    (callTool_resolution mgrW oracleW "zzz" "x").2.2.1 (by decide),
    (callTool_resolution mgrW oracleW "c/x" "x").2.2.2.1 ⟨"ghost", "x", "", ""⟩
      (by decide) (by decide),
    (callTool_resolution mgrW oracleW "d/y" "x").2.2.2.2.1 ⟨"d", "y", "", ""⟩
      ⟨"d", false⟩ (by decide) (by decide) (by decide),
    (callTool_resolution mgrW oracleW "a/echo" "hi").2.2.2.2.2
      ⟨"a", "echo", "da", "sa"⟩ ⟨"a", true⟩ (by decide) (by decide) (by decide)⟩

theorem initServerCapabilities_servers (sid : String) (d : Discovery)
    (m : Manager) : (initServerCapabilities sid d m).servers = m.servers := by
  obtain ⟨dt, dr, dp⟩ := d
  cases dt <;> cases dr <;> cases dp <;> rfl

/-- The effect of the initialize fold on the servers map alone. -/
def serversFold (cfgs : List (String × ConnectOutcome))
    (l : List (String × Server)) : List (String × Server) :=
  cfgs.foldl
    (fun acc c =>
      match c.2 with
      | .fails _ => acc
      | .ok _ => mapSet acc c.1 ⟨c.1, true⟩) l

theorem foldl_connectStep_servers (cfgs : List (String × ConnectOutcome))
    (m : Manager) : (cfgs.foldl connectStep m).servers = serversFold cfgs m.servers := by
  induction cfgs generalizing m with
  | nil => rfl
  | cons c rest ih =>
      obtain ⟨sid, o⟩ := c
      cases o with
      | fails msg => exact ih m
      | ok d =>
          simp only [List.foldl_cons, serversFold]
          rw [ih]
          simp only [connectStep, initServerCapabilities_servers]
          rfl

theorem serversFold_untouched (cfgs : List (String × ConnectOutcome))
    (l : List (String × Server)) (sid : String)
    (h : sid ∉ cfgs.map Prod.fst) :
    mapGet (serversFold cfgs l) sid = mapGet l sid := by
  induction cfgs generalizing l with
  | nil => rfl
  | cons c rest ih =>
      obtain ⟨cid, o⟩ := c
      simp only [List.map_cons, List.mem_cons] at h
      push_neg at h
      cases o with
      | fails msg => exact ih l h.2
      | ok d =>
          have h2 := ih (mapSet l cid ⟨cid, true⟩) h.2
          rw [mapGet_set_ne l cid sid ⟨cid, true⟩ h.1] at h2
          exact h2

theorem serversFold_length (cfgs : List (String × ConnectOutcome))
    (l : List (String × Server)) (hnd : (cfgs.map Prod.fst).Nodup)
    (hfresh : ∀ s ∈ cfgs.map Prod.fst, mapGet l s = none) :
    (serversFold cfgs l).length = l.length + cfgs.countP isOkCfg := by
  induction cfgs generalizing l with
  | nil => rfl
  | cons c rest ih =>
      obtain ⟨cid, o⟩ := c
      simp only [List.map_cons, List.nodup_cons] at hnd
      have hcid : mapGet l cid = none := hfresh cid (by simp)
      cases o with
      | fails msg =>
          have := ih l hnd.2 (fun s hs => hfresh s (by simp [hs]))
          simpa [serversFold, List.countP_cons, isOkCfg] using this
      | ok d =>
          have hrest : ∀ s ∈ rest.map Prod.fst,
              mapGet (mapSet l cid ⟨cid, true⟩) s = none := by
            intro s hs
            have hne : s ≠ cid := fun he => hnd.1 (he ▸ hs)
            rw [mapGet_set_ne l cid s ⟨cid, true⟩ hne]
            exact hfresh s (by simp [hs])
          have := ih (mapSet l cid ⟨cid, true⟩) hnd.2 hrest
          simp only [serversFold, List.foldl_cons] at this ⊢
          rw [this, length_mapSet_fresh l cid ⟨cid, true⟩ hcid]
          simp [List.countP_cons, isOkCfg]
          omega

theorem serversFold_ok_mem (cfgs : List (String × ConnectOutcome))
    (l : List (String × Server)) (sid : String) (d : Discovery)
    (hnd : (cfgs.map Prod.fst).Nodup)
    (hmem : (sid, ConnectOutcome.ok d) ∈ cfgs) :
    mapGet (serversFold cfgs l) sid = some ⟨sid, true⟩ := by
  induction cfgs generalizing l with
  | nil => cases hmem
  | cons c rest ih =>
      obtain ⟨cid, o⟩ := c
      simp only [List.map_cons, List.nodup_cons] at hnd
      rcases List.mem_cons.mp hmem with he | hm
      · obtain ⟨h1, h2⟩ := Prod.mk.injEq .. ▸ he
        subst h1
        cases h2
        have h3 := serversFold_untouched rest (mapSet l sid ⟨sid, true⟩) sid hnd.1
        rw [mapGet_set_self l sid ⟨sid, true⟩] at h3
        exact h3
      · cases o with
        | fails msg => exact ih l hnd.2 hm
        | ok d2 => exact ih (mapSet l cid ⟨cid, true⟩) hnd.2 hm

theorem serversFold_fails_absent (cfgs : List (String × ConnectOutcome))
    (l : List (String × Server)) (sid : String) (msg : String)
    (hnd : (cfgs.map Prod.fst).Nodup)
    (hmem : (sid, ConnectOutcome.fails msg) ∈ cfgs)
    (hl : mapGet l sid = none) :
    mapGet (serversFold cfgs l) sid = none := by
  induction cfgs generalizing l with
  | nil => cases hmem
  | cons c rest ih =>
      obtain ⟨cid, o⟩ := c
      simp only [List.map_cons, List.nodup_cons] at hnd
      rcases List.mem_cons.mp hmem with he | hm
      · obtain ⟨h1, h2⟩ := Prod.mk.injEq .. ▸ he
        subst h1
        cases h2
        have h3 := serversFold_untouched rest l sid hnd.1
        rw [hl] at h3
        exact h3
      · cases o with
        | fails m2 => exact ih l hnd.2 hm hl
        | ok d2 =>
            have hne : sid ≠ cid := by
              intro he2
              exact hnd.1 (he2 ▸ (List.mem_map_of_mem Prod.fst hm))
            refine ih (mapSet l cid ⟨cid, true⟩) hnd.2 hm ?_
            rw [mapGet_set_ne l cid sid ⟨cid, true⟩ hne]
            exact hl

theorem serversFold_all_connected (cfgs : List (String × ConnectOutcome))
    (l : List (String × Server)) (hl : ∀ p ∈ l, p.2.connected = true) :
    ∀ p ∈ serversFold cfgs l, p.2.connected = true := by
  induction cfgs generalizing l with
  | nil => exact hl
  | cons c rest ih =>
      obtain ⟨cid, o⟩ := c
      cases o with
      | fails msg => exact ih l hl
      | ok d =>
          refine ih (mapSet l cid ⟨cid, true⟩) ?_
          intro p hp
          rcases mem_mapSet l cid ⟨cid, true⟩ p hp with he | hm
          · rw [he]
          · exact hl p hm

/-- C2: partial-startup contract of initialize.  The fold over the
configured servers is total (each per-server failure is caught, so
initialize never rejects); afterwards every registered server record is
Connected, the number of Connected servers is exactly the number of
successfully connecting entries (N minus M), successfully connecting
servers are registered Connected, failing servers are never registered,
and removing a failing entry from the configuration leaves the result of
initialize on the remaining servers unchanged (a failure is fatal only for
its own server). -/
theorem initAll_partial_startup (cfgs : List (String × ConnectOutcome))
    (hnd : (cfgs.map Prod.fst).Nodup) :
    (∀ p ∈ (initAll cfgs emptyManager).servers, p.2.connected = true)
    ∧ countConnected (initAll cfgs emptyManager) = cfgs.countP isOkCfg
    ∧ (∀ sid d, (sid, ConnectOutcome.ok d) ∈ cfgs →
        mapGet (initAll cfgs emptyManager).servers sid = some ⟨sid, true⟩)
    ∧ (∀ sid msg, (sid, ConnectOutcome.fails msg) ∈ cfgs →
        mapGet (initAll cfgs emptyManager).servers sid = none)
    ∧ (∀ (pre post : List (String × ConnectOutcome)) (sid msg : String)
        (m0 : Manager),
        initAll (pre ++ (sid, ConnectOutcome.fails msg) :: post) m0 =
          initAll (pre ++ post) m0) := by
  have hserv : (initAll cfgs emptyManager).servers = serversFold cfgs [] := by
    simp only [initAll, emptyManager]
    exact foldl_connectStep_servers cfgs emptyManager
  refine ⟨?_, ?_, ?_, ?_, ?_⟩
  · rw [hserv]
    exact serversFold_all_connected cfgs [] (by intro p hp; cases hp)
  · have hall : ∀ p ∈ (initAll cfgs emptyManager).servers, p.2.connected = true := by
      rw [hserv]
      exact serversFold_all_connected cfgs [] (by intro p hp; cases hp)
    have hfilter : (initAll cfgs emptyManager).servers.filter
        (fun p => p.2.connected) = (initAll cfgs emptyManager).servers :=
      List.filter_eq_self.mpr (fun p hp => by simp [hall p hp])
    rw [countConnected, hfilter, hserv]
    have := serversFold_length cfgs [] hnd (fun s _ => rfl)
    simpa using this
  · intro sid d hmem
    rw [hserv]
    exact serversFold_ok_mem cfgs [] sid d hnd hmem
  · intro sid msg hmem
    rw [hserv]
    exact serversFold_fails_absent cfgs [] sid msg hnd hmem rfl
  · intro pre post sid msg m0
    simp only [initAll]
    by_cases h0 : m0.isInit
    · simp [h0]
    · simp only [h0, if_false]
      have : (pre ++ (sid, ConnectOutcome.fails msg) :: post).foldl connectStep m0 =
          (pre ++ post).foldl connectStep m0 := by
        rw [List.foldl_append, List.foldl_append, List.foldl_cons]
        rfl
      rw [this]

/-- Witness configuration for C2: server a fails to connect, server b
connects and lists nothing. -/
def cfgsW : List (String × ConnectOutcome) :=
  [("a", .fails "spawn failure"), ("b", .ok ⟨.ok [], .ok [], .ok []⟩)]

theorem initAll_partial_startup_witness :
    countConnected (initAll cfgsW emptyManager) = 1
    ∧ mapGet (initAll cfgsW emptyManager).servers "b" = some ⟨"b", true⟩
    ∧ mapGet (initAll cfgsW emptyManager).servers "a" = none := by
  obtain ⟨h1, h2, h3, h4, h5⟩ := initAll_partial_startup cfgsW (by decide)
  refine ⟨?_, ?_, ?_⟩
  · rw [h2]
    rfl
  · exact h3 "b" ⟨.ok [], .ok [], .ok []⟩
      (List.mem_cons_of_mem _ (List.mem_cons_self _ _))
  · exact h4 "a" "spawn failure" (List.mem_cons_self _ _)

/-- Connection with one outstanding pending call (id 1, caller 0). -/
def connW : Conn := ⟨true, [(1, 0)], [], []⟩

/-- C3 counterexample: when the process of a connection with a pending
call exits, the connection does transition to Disconnected, but the
pending entry is still in the table and no continuation has been invoked,
so in particular no pending call was failed with a TransportError. -/
theorem processExit_pending_not_failed :
    (onProcessExit connW).connected = false
    ∧ (onProcessExit connW).responseHandlers = [(1, 0)]
    ∧ (onProcessExit connW).settled = [] := by
  decide

/-- C3 amended: process exit marks the connection Disconnected and emits a
server-disconnected event, but leaves the pending-request table and every
pending continuation untouched; a pending call is only failed later, when
its own timeout timer fires, and then with a Timeout failure rather than a
TransportError. -/
theorem processExit_behavior (c : Conn) (i caller : Nat)
    (hp : mapGet c.responseHandlers i = some caller) :
    (onProcessExit c).connected = false
    ∧ (onProcessExit c).responseHandlers = c.responseHandlers
    ∧ (onProcessExit c).settled = c.settled
    ∧ (onProcessExit c).events = c.events ++ ["server-disconnected"]
    ∧ (fireTimeout (onProcessExit c) i caller).settled =
        c.settled ++ [(caller, Outcome.rejectedTimeout)] := by
  refine ⟨rfl, rfl, rfl, rfl, ?_⟩
  have hhas : mapHas c.responseHandlers i = true := by
    simp [mapHas, hp]
  simp [fireTimeout, onProcessExit, hhas]

theorem processExit_behavior_witness :
    (onProcessExit connW).connected = false
    ∧ (fireTimeout (onProcessExit connW) 1 0).settled =
        [(0, Outcome.rejectedTimeout)] := by
  obtain ⟨h1, _, _, _, h5⟩ := processExit_behavior connW 1 0 (by decide)
  exact ⟨h1, h5⟩

/-- Manager used by the shutdown counterexample: one connected server a
exposing tool a/t. -/
def mgrShutW : Manager :=
  ⟨[("a", ⟨"a", true⟩)], [("a/t", ⟨"a", "t", "d", "s"⟩)], [], [], true⟩

/-- Discriminator for a ServerUnavailable failure. -/
def isServerUnavailableE : Except CallErr String → Bool
  | .error (.serverUnavailable _) => true
  | _ => false

/-- C4 counterexample: after shutdown has cleared the registries, calling
the previously known tool a/t fails, but with a ToolNotFound error, not
with the ServerUnavailable error the claim requires. -/
theorem callTool_after_shutdown_not_unavailable :
    mapGet mgrShutW.tools "a/t" = some ⟨"a", "t", "d", "s"⟩
    ∧ (callTool (shutdown mgrShutW) oracleW "a/t" "x").1 =
        .error (.toolNotFound "a/t")
    ∧ isServerUnavailableE (callTool (shutdown mgrShutW) oracleW "a/t" "x").1 =
        false := by
  decide

/-- C4 amended: shutdown clears the servers map and all three registries,
so every callTool issued afterwards — for a previously known tool or any
other name — returns promptly with a ToolNotFound failure and forwards no
request; the ServerUnavailable branch is unreachable because the cleared
tools map can no longer resolve any name. -/
theorem callTool_after_shutdown (m : Manager) (o : Oracle) (nm args : String) :
    callTool (shutdown m) o nm args = (.error (.toolNotFound nm), []) := rfl

/-- C5: settled ids are never re-triggered.  A correlated response for an
id with a pending entry removes that entry (so the table no longer
resolves the id) while invoking the continuation exactly once; the timeout
path likewise removes the entry it rejects; and a response arriving for an
id with no pending entry is treated as a notification: it invokes no
continuation and leaves the pending table unchanged, so a caller settled
by either path can never be settled again by a later response carrying the
same id. -/
theorem late_response_no_retrigger (c : Conn) (i caller : Nat) (msg : RpcMsg)
    (hid : msg.id = some i) :
    ((c.responseHandlers.map Prod.fst).Nodup →
      mapGet c.responseHandlers i = some caller → i ≠ 0 →
      mapGet (handleJSONRPCMessage c msg).responseHandlers i = none
      ∧ (handleJSONRPCMessage c msg).settled =
          c.settled ++ [(caller, rpcOutcome msg)])
    ∧ ((c.responseHandlers.map Prod.fst).Nodup →
      mapHas c.responseHandlers i = true →
      mapGet (fireTimeout c i caller).responseHandlers i = none
      ∧ (fireTimeout c i caller).settled =
          c.settled ++ [(caller, Outcome.rejectedTimeout)])
    ∧ (mapGet c.responseHandlers i = none →
      (handleJSONRPCMessage c msg).settled = c.settled
      ∧ (handleJSONRPCMessage c msg).responseHandlers = c.responseHandlers) := by
  refine ⟨?_, ?_, ?_⟩
  · intro hnd hget hi
    constructor
    · simp only [handleJSONRPCMessage, hid, if_pos hi, hget]
      exact mapGet_delete_self c.responseHandlers i hnd
    · simp [handleJSONRPCMessage, hid, hi, hget]
  · intro hnd hhas
    constructor
    · simp only [fireTimeout, hhas, if_pos]
      exact mapGet_delete_self c.responseHandlers i hnd
    · simp [fireTimeout, hhas]
  · intro habs
    by_cases hi : i = 0
    · subst hi
      simp [handleJSONRPCMessage, hid]
    · simp [handleJSONRPCMessage, hid, hi, habs]

/-- Connection used by the C5 witness: one pending call (id 7, caller 3). -/
def connW5 : Conn := ⟨true, [(7, 3)], [], []⟩

/-- Response message correlated with id 7. -/
def msgW5 : RpcMsg := ⟨some 7, none, "result"⟩

theorem late_response_no_retrigger_witness :
    (mapGet (handleJSONRPCMessage connW5 msgW5).responseHandlers 7 = none
      ∧ (handleJSONRPCMessage connW5 msgW5).settled =
          [(3, Outcome.resolvedR "result")])
    ∧ (mapGet (fireTimeout connW5 7 3).responseHandlers 7 = none
      ∧ (fireTimeout connW5 7 3).settled = [(3, Outcome.rejectedTimeout)])
    ∧ ((handleJSONRPCMessage ⟨true, [], [], []⟩ msgW5).settled = []
      ∧ (handleJSONRPCMessage ⟨true, [], [], []⟩ msgW5).responseHandlers = []) := by
  refine ⟨?_, ?_, ?_⟩
  · exact (late_response_no_retrigger connW5 7 3 msgW5 rfl).1
      (by decide) (by decide) (by decide)
  · exact (late_response_no_retrigger connW5 7 3 msgW5 rfl).2.1
      (by decide) (by decide)
  · exact (late_response_no_retrigger ⟨true, [], [], []⟩ 7 3 msgW5 rfl).2.2
      (by decide)

/-- Empty connected connection for the C6 counterexample. -/
def connW6 : Conn := ⟨true, [], [], []⟩

/-- C6 counterexample: two sendCommand registrations that are assigned the
same id (the source draws ids from the millisecond clock, which can
repeat) make the second registration overwrite the entry of the first,
still-outstanding call: afterwards the table maps id 5 to caller 1 only
and caller 0 was never settled. -/
theorem register_overwrites_outstanding :
    (sendCommandStart (sendCommandStart connW6 true 5 0) true 5 1).responseHandlers
      = [(5, 1)]
    ∧ (sendCommandStart (sendCommandStart connW6 true 5 0) true 5 1).settled
      = [] := by
  decide

/-- C6 amended: the pending table keeps ids pairwise distinct only as map
keys; the ids assigned to calls are clock values that are not guaranteed
fresh, and registering a call under an id equal to a still-outstanding
entry overwrites that entry (the displaced caller is never settled by the
registration).  Registration stores the new caller under its id, leaves
every other id untouched, settles nobody, and preserves distinctness of
the table keys. -/
theorem register_same_id_displaces (c : Conn) (i j caller : Nat)
    (hc : c.connected = true) (hj : j ≠ i) :
    mapGet (sendCommandStart c true i caller).responseHandlers i = some caller
    ∧ mapGet (sendCommandStart c true i caller).responseHandlers j =
        mapGet c.responseHandlers j
    ∧ (sendCommandStart c true i caller).settled = c.settled
    ∧ ((c.responseHandlers.map Prod.fst).Nodup →
        ((sendCommandStart c true i caller).responseHandlers.map Prod.fst).Nodup) := by
  simp only [sendCommandStart, hc, Bool.not_true, Bool.or_false, Bool.false_or]
  refine ⟨?_, ?_, rfl, ?_⟩
  · simp [mapGet_set_self]
  · simp [mapGet_set_ne c.responseHandlers i j caller hj]
  · intro hnd
    simpa using nodupKeys_mapSet c.responseHandlers i caller hnd

theorem register_same_id_displaces_witness :
    mapGet (sendCommandStart connW5 true 7 9).responseHandlers 7 = some 9
    ∧ mapGet (sendCommandStart connW5 true 7 9).responseHandlers 8 = none
    ∧ (sendCommandStart connW5 true 7 9).settled = [] := by
  obtain ⟨h1, h2, h3, _⟩ := register_same_id_displaces connW5 7 8 9
    (by decide) (by decide)
  exact ⟨h1, h2, h3⟩

/-- Discovery replies for the C7 counterexample: the tools call is
rejected while the resources and prompts calls would answer with one entry
each. -/
def discW7 : Discovery :=
  ⟨.error "rpc failure", .ok [⟨"u"⟩], .ok [⟨"p"⟩]⟩

/-- C7 counterexample: with a failing tools/list, the discovery pass for
server s stops inside the shared catch before resources/list and
prompts/list run, so the resources and prompts registries stay empty even
though both replies would have listed an entry. -/
theorem discovery_failure_blocks_rest :
    (initServerCapabilities "s" discW7 emptyManager).resources = []
    ∧ (initServerCapabilities "s" discW7 emptyManager).prompts = []
    ∧ initServerCapabilities "s" discW7 emptyManager = emptyManager := by
  decide

/-- C7 amended: the three discovery calls run sequentially inside one
try/catch, so a failure aborts the remainder of the pass for that server
while keeping the categories already inserted, and the failure never
propagates to the caller of initializeServerCapabilities: a failing
tools/list leaves the manager unchanged; a failing resources/list keeps
the inserted tools but leaves resources and prompts unchanged; a failing
prompts/list keeps the inserted tools and resources. -/
theorem discovery_sequential_abort (sid : String) (d : Discovery) (m : Manager) :
    (∀ e, d.tools = .error e → initServerCapabilities sid d m = m)
    ∧ (∀ ts e, d.tools = .ok ts → d.resources = .error e →
        (initServerCapabilities sid d m).tools = insertTools sid ts m.tools
        ∧ (initServerCapabilities sid d m).resources = m.resources
        ∧ (initServerCapabilities sid d m).prompts = m.prompts)
    ∧ (∀ ts rs e, d.tools = .ok ts → d.resources = .ok rs →
        d.prompts = .error e →
        (initServerCapabilities sid d m).tools = insertTools sid ts m.tools
        ∧ (initServerCapabilities sid d m).resources =
            insertRsrcs sid rs m.resources
        ∧ (initServerCapabilities sid d m).prompts = m.prompts) := by
  refine ⟨?_, ?_, ?_⟩
  · intro e he
    simp [initServerCapabilities, he]
  · intro ts e ht hr
    simp [initServerCapabilities, ht, hr]
  · intro ts rs e ht hr hp
    simp [initServerCapabilities, ht, hr, hp]

theorem discovery_sequential_abort_witness :
    initServerCapabilities "s" discW7 emptyManager = emptyManager
    ∧ (initServerCapabilities "s" ⟨.ok [⟨"t", "d", "c"⟩], .error "boom", .ok [⟨"p"⟩]⟩
        emptyManager).tools = insertTools "s" [⟨"t", "d", "c"⟩] []
    ∧ (initServerCapabilities "s" ⟨.ok [⟨"t", "d", "c"⟩], .error "boom", .ok [⟨"p"⟩]⟩
        emptyManager).resources = []
    ∧ (initServerCapabilities "s" ⟨.ok [], .ok [⟨"u"⟩], .error "late"⟩
        emptyManager).prompts = [] := by
  refine ⟨?_, ?_, ?_, ?_⟩
  · exact (discovery_sequential_abort "s" discW7 emptyManager).1 "rpc failure" rfl
  · exact ((discovery_sequential_abort "s"
      ⟨.ok [⟨"t", "d", "c"⟩], .error "boom", .ok [⟨"p"⟩]⟩ emptyManager).2.1
      [⟨"t", "d", "c"⟩] "boom" rfl rfl).1
  · exact ((discovery_sequential_abort "s"
      ⟨.ok [⟨"t", "d", "c"⟩], .error "boom", .ok [⟨"p"⟩]⟩ emptyManager).2.1
      [⟨"t", "d", "c"⟩] "boom" rfl rfl).2.1
  · exact ((discovery_sequential_abort "s"
      ⟨.ok [], .ok [⟨"u"⟩], .error "late"⟩ emptyManager).2.2
      [] [⟨"u"⟩] "late" rfl rfl rfl).2.2

/-- Two-server configuration for the C8 counterexample, each server
listing one tool. -/
def cfgsW8 : List (String × ConnectOutcome) :=
  [("a", .ok ⟨.ok [⟨"t1", "", ""⟩], .ok [], .ok []⟩),
    ("b", .ok ⟨.ok [⟨"t2", "", ""⟩], .ok [], .ok []⟩)]

/-- The manager state observable after server a finished its discovery and
before server b ran. -/
def mgrMidW8 : Manager :=
  ⟨[("a", ⟨"a", true⟩)], [("a/t1", ⟨"a", "t1", "", ""⟩)], [], [], false⟩

/-- The manager state after both servers finished. -/
def mgrFinW8 : Manager :=
  ⟨[("a", ⟨"a", true⟩), ("b", ⟨"b", true⟩)],
    [("a/t1", ⟨"a", "t1", "", ""⟩), ("b/t2", ⟨"b", "t2", "", ""⟩)],
    [], [], false⟩

/-- C8 counterexample: the states observable at the await boundaries of a
discovery pass over two servers include a middle state whose tools
registry holds the first server entry only — neither the pre-pass registry
nor the final one, so the pass publishes incrementally on the live maps
rather than replacing whole snapshots. -/
theorem snapshot_half_populated :
    initSnapshots cfgsW8 emptyManager = [emptyManager, mgrMidW8, mgrFinW8]
    ∧ mgrMidW8.tools ≠ emptyManager.tools
    ∧ mgrMidW8.tools ≠ mgrFinW8.tools := by
  decide

/-- C8 amended: the global registries are mutated in place while the
discovery pass runs: after any prefix of the configured servers has been
processed, the live manager state — observable by any reader between the
awaits — is exactly the fold of the connect step over that prefix, so a
reader can see the catalogs of the already-processed servers without those
of the rest. -/
theorem snapshots_are_prefix_folds (pre post : List (String × ConnectOutcome))
    (m : Manager) :
    pre.foldl connectStep m ∈ initSnapshots (pre ++ post) m := by
  induction pre generalizing m with
  | nil =>
      cases post with
      | nil => exact List.mem_cons_self _ _
      | cons c rest => exact List.mem_cons_self _ _
  | cons c rest ih =>
      simp only [List.cons_append, List.foldl_cons, initSnapshots, List.scanl]
      exact List.mem_cons_of_mem _ (ih (connectStep m c))

/-- Discovery reply for the refresh scenario: one tool t. -/
def discW9 : Discovery := ⟨.ok [⟨"t", "d", "c"⟩], .ok [], .ok []⟩

/-- Configuration for the refresh scenario: one server s. -/
def cfgsW9 : List (String × ConnectOutcome) := [("s", .ok discW9)]

/-- The integration layer after its first, successful initialize. -/
def integW9 : Integ := integInit emptyInteg cfgsW9

/-- C9: evaluation of the mcp-refresh handler at the failing input.  The
first initialize of the single server listing one tool yields exactly one
registry entry keyed s/t (the K-entry half of the claim).  Running refresh
against the unchanged upstream then shuts the manager down — clearing its
registries — and calls the integration initialize, which returns
immediately because the integration isInitialized flag is still set: the
handler reports success while the manager registries are left empty and
the flattened registry is left stale, so refresh does not reproduce the
previous registry. -/
theorem refresh_wipes_registry :
    integManagerTools integW9 = [("s/t", ⟨"s", "t", "d", "c"⟩)]
    ∧ integW9.toolRegistry = [("t", ⟨"t", "d", "s", "c", "s/t"⟩)]
    ∧ (mcpRefresh integW9 cfgsW9).2 = true
    ∧ integManagerTools (mcpRefresh integW9 cfgsW9).1 = []
    ∧ (mcpRefresh integW9 cfgsW9).1.toolRegistry = integW9.toolRegistry := by
  decide

/-- C10: opposite tie-breaks of the two dispatch paths.  For a manager
whose tools map holds two descriptors with the same bare name nm, owned by
servers s1 (first in insertion order) and s2 (second), both connected:
registerTools keys the flattened registry by bare name, so only the entry
of the later-iterated server s2 survives, carrying the qualified key of
s2; executeTool on the bare name therefore forwards its single request to
s2 via that stored qualified key, while the manager callTool on the same
bare name forwards its single request to s1, the first suffix match in
registry insertion order. -/
theorem bare_name_tiebreak_opposite (m : Manager) (o : Oracle)
    (nm args s1 s2 d1 d2 c1 c2 : String) (srv1 srv2 : Server)
    (htools : m.tools = [(qualKey s1 nm, ⟨s1, nm, d1, c1⟩),
        (qualKey s2 nm, ⟨s2, nm, d2, c2⟩)])
    (hk12 : qualKey s1 nm ≠ qualKey s2 nm)
    (hn1 : qualKey s1 nm ≠ nm) (hn2 : qualKey s2 nm ≠ nm)
    (hsuf : strEndsWith (qualKey s1 nm) ("/" ++ nm) = true)
    (hs1 : mapGet m.servers s1 = some srv1) (hc1 : srv1.connected = true)
    (hs2 : mapGet m.servers s2 = some srv2) (hc2 : srv2.connected = true) :
    mapGet (registerTools ⟨true, some m, []⟩).toolRegistry nm =
      some ⟨nm, d2, s2, c2, qualKey s2 nm⟩
    ∧ (executeToolI (registerTools ⟨true, some m, []⟩) o nm args).2 =
        [⟨s2, "tools/call", nm, args⟩]
    ∧ (callTool m o nm args).2 = [⟨s1, "tools/call", nm, args⟩] := by
  have hreg : (registerTools ⟨true, some m, []⟩).toolRegistry =
      [(nm, ⟨nm, d2, s2, c2, qualKey s2 nm⟩)] := by
    simp [registerTools, htools, mapSet]
  have hresolve2 : resolveTool m.tools (qualKey s2 nm) =
      some ⟨s2, nm, d2, c2⟩ := by
    apply resolveTool_exact
    rw [htools]
    simp [mapGet, hk12]
  have hresolve1 : resolveTool m.tools nm = some ⟨s1, nm, d1, c1⟩ := by
    apply resolveTool_bare m.tools [] [(qualKey s2 nm, ⟨s2, nm, d2, c2⟩)]
      (qualKey s1 nm) ⟨s1, nm, d1, c1⟩ nm
    · simpa using htools
    · rw [htools]
      simp [mapGet, hn1, hn2]
    · intro p hp
      cases hp
    · exact hsuf
  refine ⟨?_, ?_, ?_⟩
  · rw [hreg]
    simp [mapGet]
  · have hman : (registerTools ⟨true, some m, []⟩).manager = some m := rfl
    simp only [executeToolI, hreg]
    simp only [mapGet, if_pos rfl, hman]
    simp [callTool, hresolve2, hs2, hc2]
  · simp [callTool, hresolve1, hs1, hc1]

/-- Witness manager for C10: servers alpha and beta both expose a tool
with the bare name echo. -/
def mgrW10 : Manager :=
  ⟨[("alpha", ⟨"alpha", true⟩), ("beta", ⟨"beta", true⟩)],
    [("alpha/echo", ⟨"alpha", "echo", "d1", "c1"⟩),
      ("beta/echo", ⟨"beta", "echo", "d2", "c2"⟩)],
    [], [], true⟩

theorem bare_name_tiebreak_opposite_witness :
    mapGet (registerTools ⟨true, some mgrW10, []⟩).toolRegistry "echo" =
      some ⟨"echo", "d2", "beta", "c2", qualKey "beta" "echo"⟩
    ∧ (executeToolI (registerTools ⟨true, some mgrW10, []⟩) oracleW "echo" "x").2 =
        [⟨"beta", "tools/call", "echo", "x"⟩]
    ∧ (callTool mgrW10 oracleW "echo" "x").2 =
        [⟨"alpha", "tools/call", "echo", "x"⟩] := by
  exact bare_name_tiebreak_opposite mgrW10 oracleW "echo" "x" "alpha" "beta"
    "d1" "d2" "c1" "c2" ⟨"alpha", true⟩ ⟨"beta", true⟩ (by decide) (by decide)
    (by decide) (by decide) (by decide) (by decide) (by decide) (by decide)
    (by decide)

end MCP
